import Mathlib

/-!
Verification development for the plenum tutorial's consensus pool.

The tutorial script (src/tutorial/tutorial.py) drives a four-node pool
through bootstrap, client registration, request submission, reply
aggregation and a fault-injection scenario, but the engine itself lives in
the plenum library outside the provided sources.  The definitions below
are therefore modelled from the specification (spec.md): each component is
embedded as an executable Lean function, and the claims are settled
against these models.

Identifiers, keys, payloads, results and digests are all modelled as
natural numbers; the toy signature scheme pairs the key with the signed
content, so a signature verifies against exactly one key and content.
-/

namespace Plenum

/-- Modelled from the spec: a deterministic signature over content with a
key (the spec's signing mechanism is external; this toy scheme makes a
signature verify against exactly one key and content). -/
def mkSig (key content : Nat) : Nat :=
  Nat.pair key content

/-- Modelled from the spec: error taxonomy of section 7 (the parts the
claims use). -/
inductive AuthError where
  | UnknownClientError
  | BadSignatureError
  | KeySubstitutionError
deriving DecidableEq, Repr

/-- Modelled from the spec: Request is clientId, reqId, payload, signature,
immutable once created. -/
structure Request where
  clientId : Nat
  reqId : Nat
  payload : Nat
  signature : Nat
deriving DecidableEq, Repr

/-- The signed content of a request: everything except the signature. -/
def reqBody (r : Request) : Nat :=
  Nat.pair r.clientId (Nat.pair r.reqId r.payload)

/-- Modelled from the spec: the digest is a fixed-size fingerprint of the
request used to detect conflicting proposals (collision-free here). -/
def digestOf (r : Request) : Nat :=
  reqBody r

/-- Build a correctly signed request with the given client signing key. -/
def signedRequest (key clientId reqId payload : Nat) : Request :=
  { clientId := clientId, reqId := reqId, payload := payload,
    signature := mkSig key (Nat.pair clientId (Nat.pair reqId payload)) }

/-- Modelled from the spec: ClientAuthenticator, a per-node registry from
client identifier to verification key (missing from src/: only the call
site node.clientAuthNr.addClient appears in the tutorial). -/
structure ClientAuthenticator where
  clients : List (Nat × Nat)
deriving DecidableEq, Repr

/-- The key currently bound to a client identifier, if any. -/
def lookupClient (a : ClientAuthenticator) (id : Nat) : Option Nat :=
  (a.clients.find? (fun p => p.1 == id)).map (fun p => p.2)

/-- Modelled from the spec: addClient is idempotent when the pair already
matches and fails with KeySubstitutionError when the identifier is bound
to a different key (registration is append-only). -/
def addClient (a : ClientAuthenticator) (id key : Nat) :
    Except AuthError ClientAuthenticator :=
  match lookupClient a id with
  | none => .ok { clients := a.clients ++ [(id, key)] }
  | some k => if k == key then .ok a else .error .KeySubstitutionError

/-- Modelled from the spec: verify fails with UnknownClientError for an
unregistered identifier, BadSignatureError when the signature does not
verify against the stored key, and otherwise succeeds with no side
effect. -/
def verify (a : ClientAuthenticator) (r : Request) : Except AuthError Unit :=
  match lookupClient a r.clientId with
  | none => .error .UnknownClientError
  | some key =>
      if r.signature == mkSig key (reqBody r) then .ok () else .error .BadSignatureError

/-- Modelled from the spec: Reply is reqId, result, nodeName, signature. -/
structure Reply where
  reqId : Nat
  result : Nat
  nodeName : Nat
  signature : Nat
deriving DecidableEq, Repr

/-- Modelled from the spec: the client-side consensus verdict states. -/
inductive ConsensusStatus where
  | ReachedConsensus
  | NoConsensusYet
  | Timeout
deriving DecidableEq, Repr

/-- Number of distinct nodes among the collected replies whose result is
bit-identical to the given one. -/
def resultVotes (replies : List Reply) (res : Nat) : Nat :=
  ((replies.filter (fun r => r.result == res)).map (fun r => r.nodeName)).dedup.length

/-- Whether some result is carried by replies from at least f+1 distinct
nodes. -/
def hasConsensus (f : Nat) (replies : List Reply) : Bool :=
  replies.any (fun r => f + 1 ≤ resultVotes replies r.result)

/-- Modelled from the spec: QuorumCertificate status — ReachedConsensus
iff at least f+1 replies from distinct nodes carry bit-identical result,
Timeout after the deadline, NoConsensusYet before it. -/
def certStatus (f : Nat) (replies : List Reply) (deadlineElapsed : Bool) :
    ConsensusStatus :=
  if hasConsensus f replies then .ReachedConsensus
  else if deadlineElapsed then .Timeout
  else .NoConsensusYet

/-- Modelled from the spec: getReply returns a reply backed by an f+1
quorum of matching results (if any) together with the verdict. -/
def getReply (f : Nat) (replies : List Reply) (deadlineElapsed : Bool) :
    Option Reply × ConsensusStatus :=
  (replies.find? (fun r => f + 1 ≤ resultVotes replies r.result),
   certStatus f replies deadlineElapsed)

/-- Modelled from the spec: showReplyDetails exposes every received reply,
including non-matching ones, and never affects the quorum decision. -/
def showReplyDetails (replies : List Reply) : List Reply :=
  replies

/-- Modelled from the spec: the client-side state of the ReplyAggregator
(the Client class is missing from src/; only its call sites appear in the
tutorial).  certs accumulates, per reqId, the replies received so far. -/
structure ClientState where
  clientId : Nat
  signKey : Nat
  poolSize : Nat
  lastReqId : Nat
  certs : List (Nat × List Reply)
deriving DecidableEq, Repr

/-- The f-value of the pool the client talks to. -/
def clientF (st : ClientState) : Nat :=
  (st.poolSize - 1) / 3

/-- Modelled from the spec: submit constructs a Request with the next
reqId for this client, signs it, opens its quorum certificate and returns
the (single-element) batch of requests sent. -/
def submit (st : ClientState) (payload : Nat) : List Request × ClientState :=
  let rid := st.lastReqId + 1
  let req := signedRequest st.signKey st.clientId rid payload
  ([req],
   { st with lastReqId := rid, certs := st.certs ++ [(rid, [])] })

/-- A reply message arriving at the client is appended to the certificate
of its reqId (unknown reqIds are ignored). -/
def receiveReply (st : ClientState) (rep : Reply) : ClientState :=
  { st with
    certs := st.certs.map (fun c => if c.1 == rep.reqId then (c.1, c.2 ++ [rep]) else c) }

/-- The replies accumulated for a reqId, when that reqId is a known key. -/
def certOf (st : ClientState) (rid : Nat) : Option (List Reply) :=
  (st.certs.find? (fun c => c.1 == rid)).map (fun c => c.2)

/-- Modelled from the spec: getReply keyed by reqId on the client. -/
def clientGetReply (st : ClientState) (rid : Nat) (deadlineElapsed : Bool) :
    Option (Option Reply × ConsensusStatus) :=
  (certOf st rid).map (fun replies => getReply (clientF st) replies deadlineElapsed)

/-- Modelled from the spec: showReplyDetails keyed by reqId on the client. -/
def clientShowReplyDetails (st : ClientState) (rid : Nat) : Option (List Reply) :=
  (certOf st rid).map showReplyDetails

/-! ## The per-node RequestOrderingEngine

Modelled from the spec, section 4.3: the Node / replica protocol classes
are missing from src/ (the tutorial only constructs nodes and registers
client keys), so the three-phase ordering engine below follows the spec's
words. -/

/-- Modelled from the spec: the per-node engine states. -/
inductive NodeMode where
  | Uninitialized
  | Bootstrapping
  | Ready
  | ViewActive
  | ViewChanging
deriving DecidableEq, Repr

/-- A Prepare or Commit vote: sender plus the (seq, view, digest) triple it
is matched on. -/
structure Vote where
  sender : Nat
  seq : Nat
  view : Nat
  dg : Nat
deriving DecidableEq, Repr

/-- Modelled from the spec: OrderedRequestRecord is seq, reqId, digest. -/
structure OrderedRequestRecord where
  seq : Nat
  reqId : Nat
  dg : Nat
deriving DecidableEq, Repr

/-- Modelled from the spec: a ViewChange message carries the proposed new
view, the sender's last stable sequence number, and its proof: the
(seq, view, digest) triples of the sender's prepared-but-not-committed
requests, standing for their 2f+1-signed Prepare certificates.  As with
Prepare and Commit votes, signature and certificate validity is checked
at the transport boundary, so messages are taken as authentic here. -/
structure VCVote where
  sender : Nat
  newView : Nat
  lastStable : Nat
  proof : List (Nat × Nat × Nat)
deriving DecidableEq, Repr

/-- Modelled from the spec: per-node engine state.  replyTransform is the
FaultInjectionHarness strategy fixed at construction (identity for an
honest node); it is applied to the otherwise-correct reply content at the
signing/sending boundary, so the stored reply cache holds the correct
content.  proposals records the Propose broadcasts the node makes as
primary in normal operation (fresh sequence assignments drawn from its
authenticated pool); reproposals records the Propose broadcasts it makes
as a new primary after a view change, justified by the Prepare proofs
carried in the collected ViewChange votes. -/
structure NodeState where
  name : Nat
  poolSize : Nat
  view : Nat
  mode : NodeMode
  authNr : ClientAuthenticator
  authed : List Request
  proposals : List (Nat × Nat × Nat)
  reproposals : List (Nat × Nat × Nat)
  nextSeq : Nat
  prepareVotes : List Vote
  commitVotes : List Vote
  preparedRecs : List (Nat × Nat × Nat)
  log : List OrderedRequestRecord
  replyCache : List ((Nat × Nat) × Reply)
  lastStableSeq : Nat
  vcVotes : List VCVote
  replyTransform : Nat → Nat

/-- The f-value of the node's pool. -/
def NodeState.f (st : NodeState) : Nat :=
  (st.poolSize - 1) / 3

/-- The primary of the node's current view (view number mod n). -/
def primaryOf (st : NodeState) : Nat :=
  st.view % st.poolSize

/-- Whether this node is the primary of its current view. -/
def isPrimary (st : NodeState) : Bool :=
  primaryOf st == st.name

/-- Modelled from the spec: only in Ready or ViewActive does the node
participate in ordering. -/
def participating (st : NodeState) : Bool :=
  st.mode == NodeMode.Ready || st.mode == NodeMode.ViewActive

/-- Append a vote unless an identical vote is already held (idempotent
handling of duplicated messages). -/
def addVote (votes : List Vote) (m : Vote) : List Vote :=
  if votes.contains m then votes else votes ++ [m]

/-- Number of distinct senders among the votes satisfying a predicate. -/
def quorumCount (p : Vote → Bool) (votes : List Vote) : Nat :=
  ((votes.filter p).map (fun x => x.sender)).dedup.length

/-- Matching a vote against a (seq, view, digest) triple. -/
def voteMatches (s v d : Nat) (x : Vote) : Bool :=
  x.seq == s && x.view == v && x.dg == d

/-- Distinct senders voting for the triple. -/
def votersCount (votes : List Vote) (s v d : Nat) : Nat :=
  quorumCount (voteMatches s v d) votes

/-- Distinct senders other than this node voting for the triple. -/
def otherVotersCount (self : Nat) (votes : List Vote) (s v d : Nat) : Nat :=
  quorumCount (fun x => voteMatches s v d x && x.sender != self) votes

/-- Whether the node holds its own vote for the triple. -/
def hasOwnVote (self : Nat) (votes : List Vote) (s v d : Nat) : Bool :=
  votes.any (fun x => x.sender == self && voteMatches s v d x)

/-- The cached reply for a (clientId, reqId) pair, if that request was
already executed. -/
def cachedReply (st : NodeState) (cid rid : Nat) : Option Reply :=
  (st.replyCache.find? (fun p => p.1 == (cid, rid))).map (fun p => p.2)

/-- Modelled from the spec: the deterministic application executing an
ordered request; application-level semantics are out of scope, so the
result is an opaque deterministic function of the payload. -/
def execute (payload : Nat) : Nat :=
  payload

/-- The reply a node sends out: the FaultInjectionHarness transform is
applied to the otherwise-correct reply content before signing and
sending. -/
def emitReply (st : NodeState) (raw : Reply) : Reply :=
  let res := st.replyTransform raw.result
  { reqId := raw.reqId, result := res, nodeName := raw.nodeName,
    signature := mkSig raw.nodeName (Nat.pair raw.reqId res) }

/-- Modelled from the spec: a client submission is deduplicated against
the reply cache (by clientId and reqId), authenticated, and pooled for
ordering; a failed verification is rejected with no side effect. -/
def handleClientRequest (st : NodeState) (r : Request) :
    NodeState × Option Reply :=
  match cachedReply st r.clientId r.reqId with
  | some raw => (st, some (emitReply st raw))
  | none =>
      match verify st.authNr r with
      | .error _ => (st, none)
      | .ok _ =>
          if st.authed.any (fun q => q.clientId == r.clientId && q.reqId == r.reqId)
          then (st, none)
          else ({ st with authed := st.authed ++ [r] }, none)

/-- Authenticated requests whose reqId is not yet in the ordering log. -/
def pendingRequests (st : NodeState) : List Request :=
  st.authed.filter (fun r => ! st.log.any (fun rec => rec.reqId == r.reqId))

/-- Modelled from the spec: the primary, on holding an authenticated
request not yet ordered (and not yet proposed), assigns the next sequence
number and broadcasts a Propose for its digest. -/
def doPropose (st : NodeState) : NodeState :=
  if isPrimary st && participating st then
    match (pendingRequests st).find?
        (fun r => ! st.proposals.any (fun p => p.2.2 == digestOf r)) with
    | some r =>
        { st with
          proposals := st.proposals ++ [(st.nextSeq, st.view, digestOf r)],
          nextSeq := st.nextSeq + 1 }
    | none => st
  else st

/-- Once the node holds its own Prepare vote plus 2f matching Prepare
votes from distinct other nodes for the triple, it marks the triple
prepared and broadcasts (and records) its own Commit vote. -/
def prepareReady (st : NodeState) (s v d : Nat) : Bool :=
  hasOwnVote st.name st.prepareVotes s v d
    && 2 * st.f ≤ otherVotersCount st.name st.prepareVotes s v d

/-- Mark a triple prepared when its Prepare quorum is complete, adding the
node's own Commit vote. -/
def tryMarkPrepared (st : NodeState) (s v d : Nat) : NodeState :=
  if prepareReady st s v d && ! st.preparedRecs.contains (s, v, d) then
    { st with
      preparedRecs := st.preparedRecs ++ [(s, v, d)],
      commitVotes := addVote st.commitVotes
        { sender := st.name, seq := s, view := v, dg := d } }
  else st

/-- Modelled from the spec: a backup accepts a Propose from the current
view's primary if the seq is not already bound to a different digest by
its own Prepare vote and the digest matches a request it authenticated;
it then casts its own Prepare vote. -/
def handlePropose (st : NodeState) (sender s v d : Nat) : NodeState :=
  if participating st && v == st.view && sender == primaryOf st
      && ! (st.prepareVotes.any
            (fun x => x.sender == st.name && x.seq == s && x.view == v && x.dg != d))
      && st.authed.any (fun r => digestOf r == d) then
    let st1 := { st with
      prepareVotes := addVote st.prepareVotes
        { sender := st.name, seq := s, view := v, dg := d } }
    tryMarkPrepared st1 s v d
  else st

/-- A Prepare vote arriving from a distinct node is recorded (the node's
own vote is only ever cast locally) and the Prepare quorum re-checked. -/
def handlePrepare (st : NodeState) (m : Vote) : NodeState :=
  if participating st && m.sender != st.name then
    let st1 := { st with prepareVotes := addVote st.prepareVotes m }
    tryMarkPrepared st1 m.seq m.view m.dg
  else st

/-- Whether 2f+1 distinct nodes have committed the triple. -/
def commitReady (st : NodeState) (s v d : Nat) : Bool :=
  2 * st.f + 1 ≤ votersCount st.commitVotes s v d

/-- Modelled from the spec: once 2f+1 matching Commit votes are collected
the node finalizes the OrderedRequestRecord, executes the request exactly
once (a reqId already in the log is never re-ordered) and caches the
reply content for emission. -/
def tryFinalize (st : NodeState) (s v d : Nat) : NodeState :=
  if commitReady st s v d then
    match st.authed.find? (fun r => digestOf r == d) with
    | some r =>
        if st.log.any (fun rec => rec.reqId == r.reqId) then st
        else
          let res := execute r.payload
          let raw : Reply :=
            { reqId := r.reqId, result := res, nodeName := st.name,
              signature := mkSig st.name (Nat.pair r.reqId res) }
          { st with
            log := st.log ++ [{ seq := s, reqId := r.reqId, dg := d }],
            replyCache := st.replyCache ++ [((r.clientId, r.reqId), raw)] }
    | none => st
  else st

/-- A Commit vote arriving from a distinct node is recorded and the Commit
quorum re-checked. -/
def handleCommit (st : NodeState) (m : Vote) : NodeState :=
  if participating st && m.sender != st.name then
    let st1 := { st with commitVotes := addVote st.commitVotes m }
    tryFinalize st1 m.seq m.view m.dg
  else st

/-- Distinct senders of ViewChange votes for a given new view. -/
def vcVotersCount (votes : List VCVote) (nv : Nat) : Nat :=
  ((votes.filter (fun v => v.newView == nv)).map (fun v => v.sender)).dedup.length

/-- Prepared triples whose digest is not yet finalized in the log. -/
def preparedNotCommitted (st : NodeState) : List (Nat × Nat × Nat) :=
  st.preparedRecs.filter (fun p => ! st.log.any (fun rec => rec.dg == p.2.2))

/-- Record a ViewChange vote, idempotently (keyed by message identity). -/
def addVcVote (votes : List VCVote) (m : VCVote) : List VCVote :=
  if votes.contains m then votes else votes ++ [m]

/-- The last stable sequence number for a view activation: the maximum of
the node's own and those reported by the collected ViewChange votes for
the new view. -/
def vcStable (st : NodeState) (nv : Nat) : Nat :=
  (st.vcVotes.filter (fun v => v.newView == nv)).foldl
    (fun acc v => Nat.max acc v.lastStable) st.lastStableSeq

/-- All prepared-but-not-committed triples reported by the Prepare proofs
inside the collected ViewChange votes for the new view. -/
def proofsFor (st : NodeState) (nv : Nat) : List (Nat × Nat × Nat) :=
  (st.vcVotes.filter (fun v => v.newView == nv)).flatMap (fun v => v.proof)

/-- The re-proposal duty of the node on adopting a new view: the new
primary re-proposes, under the new view, every prepared-but-not-committed
request — its own prepared records and every triple reported by the
Prepare proofs in the collected ViewChange votes whose digest it has not
finalized — so no prepared request is silently dropped. -/
def reproposalsFor (st : NodeState) (nv : Nat) : List (Nat × Nat × Nat) :=
  if nv % st.poolSize == st.name then
    (preparedNotCommitted st ++
        (proofsFor st nv).filter
          (fun p => ! st.log.any (fun rec => rec.dg == p.2.2))).map
      (fun p => (p.1, nv, p.2.2))
  else []

/-- Activate a new view: adopt newView (whose primary is newView mod n),
resume ordering from the quorum's last stable sequence number plus one,
and take up the new primary's re-proposal duty. -/
def vcActivate (st : NodeState) (nv : Nat) : NodeState :=
  { st with
    view := nv, mode := NodeMode.ViewActive,
    lastStableSeq := vcStable st nv,
    nextSeq := vcStable st nv + 1,
    reproposals := st.reproposals ++ reproposalsFor st nv }

/-- Modelled from the spec: a ViewChange vote (carrying newView, the
sender's lastStableSeq and its Prepare proofs) is recorded; when f+1
distinct nodes vote for the same (newer) view the node activates it. -/
def handleViewChange (st : NodeState) (m : VCVote) : NodeState :=
  if st.f + 1 ≤ vcVotersCount (addVcVote st.vcVotes m) m.newView
      && st.view < m.newView then
    vcActivate { st with vcVotes := addVcVote st.vcVotes m } m.newView
  else { st with vcVotes := addVcVote st.vcVotes m }

/-- The events a node reacts to. -/
inductive NodeEvent where
  | clientRequest (r : Request)
  | proposeTick
  | proposeMsg (sender s v d : Nat)
  | prepareMsg (m : Vote)
  | commitMsg (m : Vote)
  | viewChangeMsg (m : VCVote)

/-- One step of the node: dispatch an event to its handler. -/
def step (st : NodeState) (e : NodeEvent) : NodeState :=
  match e with
  | .clientRequest r => (handleClientRequest st r).1
  | .proposeTick => doPropose st
  | .proposeMsg sender s v d => handlePropose st sender s v d
  | .prepareMsg m => handlePrepare st m
  | .commitMsg m => handleCommit st m
  | .viewChangeMsg m => handleViewChange st m

/-- Run the node over a list of events. -/
def run (st : NodeState) (es : List NodeEvent) : NodeState :=
  es.foldl step st

/-- A node as constructed after bootstrap: Ready, view 0, empty logs, with
its authenticator and its reply behavior fixed at construction. -/
def initNode (name n : Nat) (a : ClientAuthenticator) (tf : Nat → Nat) :
    NodeState :=
  { name := name, poolSize := n, view := 0, mode := NodeMode.Ready,
    authNr := a, authed := [], proposals := [], reproposals := [], nextSeq := 1,
    prepareVotes := [], commitVotes := [], preparedRecs := [], log := [],
    replyCache := [], lastStableSeq := 0, vcVotes := [],
    replyTransform := tf }

/-! ## The pool-level agreement model

Modelled from the spec: a global, after-the-fact view of one run of the
pool, recording which node cast a Commit vote for which
(seq, view, digest) binding and which node finalized which binding.  The
well-formedness conditions transcribe the spec: at most
f = floor((n-1)/3) faulty nodes; an honest node finalizes a binding only
on a quorum of 2f+1 distinct Commit votes for it; and an honest node
commit-votes a single digest per (seq, view) — the transcription of the
spec's Propose-acceptance rule (a backup refuses a Propose whose seq is
already assigned to a different digest in its log), which the engine
below provably obeys (see the agreement theorem's second part). -/
structure World where
  pool : Finset Nat
  faulty : Finset Nat
  commits : Finset (Nat × Nat × Nat × Nat)
  finals : Finset (Nat × Nat × Nat × Nat)

/-- The pool size. -/
def World.n (w : World) : Nat := w.pool.card

/-- The maximum tolerated number of faulty nodes, floor((n-1)/3). -/
def World.f (w : World) : Nat := (w.n - 1) / 3

/-- A registry knowing client 0 with verification key 5. -/
def auth0 : ClientAuthenticator := { clients := [(0, 5)] }

/-- Client 0's first request, correctly signed with key 5. -/
def req0 : Request := signedRequest 5 0 1 42

/-- The digest of req0. -/
def d0 : Nat := digestOf req0

/-- A request from client 0 whose signature does not verify. -/
def badReq : Request := { clientId := 0, reqId := 9, payload := 7, signature := 0 }

/-- A request from an unregistered client. -/
def unknownReq : Request := { clientId := 3, reqId := 1, payload := 7, signature := 0 }

/-- An event sequence by which backup node 1 of a four-node pool (f = 1)
authenticates req0, accepts the primary's Propose for it at seq 1,
collects Prepare votes from nodes 2 and 3 (2f distinct others plus its
own), then Commit votes from nodes 2 and 3 (2f+1 with its own), and so
finalizes and executes req0. -/
def evs0 : List NodeEvent :=
  [ .clientRequest req0,
    .proposeMsg 0 1 0 d0,
    .prepareMsg { sender := 2, seq := 1, view := 0, dg := d0 },
    .prepareMsg { sender := 3, seq := 1, view := 0, dg := d0 },
    .commitMsg { sender := 2, seq := 1, view := 0, dg := d0 },
    .commitMsg { sender := 3, seq := 1, view := 0, dg := d0 } ]

/-- The state of node 1 after evs0. -/
def node1run : NodeState := run (initNode 1 4 auth0 id) evs0

/-- A correct reply to req0 as emitted by the given node. -/
def goodReply (node : Nat) : Reply :=
  { reqId := 1, result := 42, nodeName := node, signature := mkSig node (Nat.pair 1 42) }

/-- The corrupted reply to req0 emitted by faulty node 1. -/
def corruptReply : Reply :=
  { reqId := 1, result := 99, nodeName := 1, signature := mkSig 1 (Nat.pair 1 99) }

/-- The replies the client holds in the Byzantine scenario: node 1 is
output-faulty, nodes 0, 2 and 3 answer identically. -/
def byzReplies : List Reply := [goodReply 0, corruptReply, goodReply 2, goodReply 3]

/-- A freshly constructed client of the four-node pool. -/
def client0 : ClientState :=
  { clientId := 0, signKey := 5, poolSize := 4, lastReqId := 0, certs := [] }

/-- Node 1 of the four-node pool after preparing req0 at (seq 1, view 0)
without committing it, then receiving node 0's ViewChange vote for
view 1: one more distinct vote reaches the f+1 = 2 threshold, and node 1
is the primary of view 1. -/
def stVC : NodeState :=
  run (initNode 1 4 auth0 id)
    [ .clientRequest req0,
      .proposeMsg 0 1 0 d0,
      .prepareMsg { sender := 2, seq := 1, view := 0, dg := d0 },
      .prepareMsg { sender := 3, seq := 1, view := 0, dg := d0 },
      .viewChangeMsg { sender := 0, newView := 1, lastStable := 0, proof := [] } ]

/-- Node 3's ViewChange vote for view 1: last stable seq 2, carrying the
Prepare proof of a triple prepared at node 3 but unknown to node 1. -/
def vc3 : VCVote :=
  { sender := 3, newView := 1, lastStable := 2, proof := [(5, 0, 777)] }

/-- The engine invariant: authenticated pool is verify-clean; the node's
own Prepare votes and all proposals are for authenticated requests; every
prepared triple is backed by the node's own vote plus 2f distinct other
votes; every log record is backed by a 2f+1 Commit quorum; reqIds are
never logged or executed twice; every cached reply corresponds to a
finalized, authenticated request; and the node's own Prepare votes bind
each (seq, view) to a single digest, a discipline its own Commit votes
inherit. -/
def Inv (st : NodeState) : Prop :=
  (∀ r ∈ st.authed, verify st.authNr r = .ok ()) ∧
  (∀ x ∈ st.prepareVotes, x.sender = st.name →
      ∃ r ∈ st.authed, digestOf r = x.dg) ∧
  (∀ p ∈ st.preparedRecs,
      hasOwnVote st.name st.prepareVotes p.1 p.2.1 p.2.2 = true ∧
      2 * st.f ≤ otherVotersCount st.name st.prepareVotes p.1 p.2.1 p.2.2) ∧
  (∀ p ∈ st.proposals, ∃ r ∈ st.authed, digestOf r = p.2.2) ∧
  (∀ rec ∈ st.log, ∃ v, 2 * st.f + 1 ≤ votersCount st.commitVotes rec.seq v rec.dg) ∧
  (st.log.map (fun rec => rec.reqId)).Nodup ∧
  (∀ e ∈ st.replyCache, e.2.reqId = e.1.2 ∧
      (∃ rec ∈ st.log, rec.reqId = e.1.2) ∧
      (∃ r ∈ st.authed, r.clientId = e.1.1 ∧ r.reqId = e.1.2)) ∧
  (st.replyCache.map (fun e => e.1.2)).Nodup ∧
  (∀ e ∈ st.replyCache, e.2.nodeName = st.name ∧
      e.2.signature = mkSig st.name (Nat.pair e.2.reqId e.2.result)) ∧
  (∀ x ∈ st.prepareVotes, ∀ y ∈ st.prepareVotes,
      x.sender = st.name → y.sender = st.name →
      x.seq = y.seq → x.view = y.view → x.dg = y.dg) ∧
  (∀ x ∈ st.commitVotes, x.sender = st.name →
      hasOwnVote st.name st.prepareVotes x.seq x.view x.dg = true)

/-! ## Helper lemmas about vote counting -/

/-- The number of distinct images of a filtered list is monotone under
taking super-lists. -/
lemma dedupLen_mono {α β : Type} [DecidableEq α] [DecidableEq β]
    (p : α → Bool) (f : α → β) {l1 l2 : List α} (h : List.Sublist l1 l2) :
    ((l1.filter p).map f).dedup.length ≤ ((l2.filter p).map f).dedup.length := by
  have hs : List.Sublist ((l1.filter p).map f) ((l2.filter p).map f) := (h.filter p).map f
  have hsub :
      ((l1.filter p).map f).toFinset ⊆ ((l2.filter p).map f).toFinset := by
    intro x hx
    exact List.mem_toFinset.mpr (hs.subset (List.mem_toFinset.mp hx))
  have hc := Finset.card_le_card hsub
  simpa [List.card_toFinset] using hc

/-- Recording one more vote never lowers a quorum count. -/
lemma quorumCount_addVote_le (p : Vote → Bool) (votes : List Vote) (m : Vote) :
    quorumCount p votes ≤ quorumCount p (addVote votes m) := by
  unfold addVote
  split
  · exact Nat.le_refl _
  · exact dedupLen_mono p _ (List.sublist_append_left votes [m])

/-- A vote already held is still held after recording another vote. -/
lemma any_addVote (q : Vote → Bool) (votes : List Vote) (m : Vote)
    (h : votes.any q = true) : (addVote votes m).any q = true := by
  unfold addVote
  split
  · exact h
  · simp only [List.any_append, h, Bool.true_or]

/-- Membership in a list extended by addVote comes from the old list or is
the new vote. -/
lemma mem_addVote {votes : List Vote} {m x : Vote}
    (h : x ∈ addVote votes m) : x ∈ votes ∨ x = m := by
  unfold addVote at h
  split at h
  · exact Or.inl h
  · rcases List.mem_append.mp h with h1 | h1
    · exact Or.inl h1
    · exact Or.inr (List.mem_singleton.mp h1)

/-- Appending an element not yet present preserves Nodup. -/
lemma nodup_append_one {α : Type} (l : List α) (a : α)
    (h : l.Nodup) (ha : a ∉ l) : (l ++ [a]).Nodup := by
  simp only [List.nodup_append, List.nodup_singleton, true_and, h, List.Disjoint]
  intro x hx hxa
  rcases List.mem_singleton.mp hxa with rfl
  exact ha hx

lemma inv_handleClientRequest {st : NodeState} (r : Request) (h : Inv st) :
    Inv (handleClientRequest st r).1 := by
  unfold handleClientRequest
  cases hcr : cachedReply st r.clientId r.reqId with
  | some raw => exact h
  | none =>
      cases hv : verify st.authNr r with
      | error e => exact h
      | ok u =>
          by_cases hdup :
              st.authed.any (fun q => q.clientId == r.clientId && q.reqId == r.reqId) = true
          · simp only [hdup, if_true]
            exact h
          · simp only [hdup, if_false]
            obtain ⟨h1, h2, h3, h4, h5, h6, h7, h8, h9, h10, h11⟩ := h
            refine ⟨?_, ?_, h3, ?_, h5, h6, ?_, h8, h9, h10, h11⟩
            · intro q hq
              rcases List.mem_append.mp hq with hq1 | hq1
              · exact h1 q hq1
              · rcases List.mem_singleton.mp hq1 with rfl
                cases u
                exact hv
            · intro x hx hs
              obtain ⟨q, hq, hdg⟩ := h2 x hx hs
              exact ⟨q, List.mem_append_left _ hq, hdg⟩
            · intro x hx
              obtain ⟨q, hq, hdg⟩ := h4 x hx
              exact ⟨q, List.mem_append_left _ hq, hdg⟩
            · intro e he
              obtain ⟨he1, he2, q, hq, hq2⟩ := h7 e he
              exact ⟨he1, he2, q, List.mem_append_left _ hq, hq2⟩

lemma inv_tryMarkPrepared {st : NodeState} (s v d : Nat) (h : Inv st) :
    Inv (tryMarkPrepared st s v d) := by
  unfold tryMarkPrepared
  split
  · rename_i hcond
    rw [Bool.and_eq_true] at hcond
    obtain ⟨hready, _⟩ := hcond
    unfold prepareReady at hready
    rw [Bool.and_eq_true, decide_eq_true_eq] at hready
    obtain ⟨hown, hcnt⟩ := hready
    obtain ⟨h1, h2, h3, h4, h5, h6, h7, h8, h9, h10, h11⟩ := h
    refine ⟨h1, h2, ?_, h4, ?_, h6, h7, h8, h9, h10, ?_⟩
    · intro p hp
      rcases List.mem_append.mp hp with hp1 | hp1
      · exact h3 p hp1
      · rcases List.mem_singleton.mp hp1 with rfl
        exact ⟨hown, hcnt⟩
    · intro rec hrec
      obtain ⟨v2, hv2⟩ := h5 rec hrec
      exact ⟨v2, Nat.le_trans hv2 (quorumCount_addVote_le _ _ _)⟩
    · intro x hx hs
      rcases mem_addVote hx with hx1 | hx1
      · exact h11 x hx1 hs
      · rcases hx1 with rfl
        exact hown
  · exact h

lemma inv_handlePropose {st : NodeState} (sender s v d : Nat) (h : Inv st) :
    Inv (handlePropose st sender s v d) := by
  unfold handlePropose
  split
  · rename_i hcond
    simp only [Bool.and_eq_true] at hcond
    obtain ⟨⟨⟨⟨_, _⟩, _⟩, hnodp⟩, hauth⟩ := hcond
    apply inv_tryMarkPrepared
    obtain ⟨h1, h2, h3, h4, h5, h6, h7, h8, h9, h10, h11⟩ := h
    have hnone : ∀ x ∈ st.prepareVotes, x.sender = st.name →
        x.seq = s → x.view = v → x.dg = d := by
      intro x hx hxs hxq hxv
      by_contra hxd
      have hany : st.prepareVotes.any
          (fun x => x.sender == st.name && x.seq == s && x.view == v && x.dg != d)
            = true :=
        List.any_eq_true.mpr ⟨x, hx, by simp [hxs, hxq, hxv, hxd]⟩
      rw [hany] at hnodp
      simp at hnodp
    refine ⟨h1, ?_, ?_, h4, h5, h6, h7, h8, h9, ?_, ?_⟩
    · intro x hx hs
      rcases mem_addVote hx with hx1 | hx1
      · exact h2 x hx1 hs
      · rcases hx1 with rfl
        rw [List.any_eq_true] at hauth
        obtain ⟨q, hq, hdg⟩ := hauth
        exact ⟨q, hq, by simpa using hdg⟩
    · intro p hp
      obtain ⟨hown, hcnt⟩ := h3 p hp
      exact ⟨any_addVote _ _ _ hown,
        Nat.le_trans hcnt (quorumCount_addVote_le _ _ _)⟩
    · intro x hx y hy hxs hys hseq hview
      rcases mem_addVote hx with hx1 | hx1
      · rcases mem_addVote hy with hy1 | hy1
        · exact h10 x hx1 y hy1 hxs hys hseq hview
        · rcases hy1 with rfl
          exact hnone x hx1 hxs hseq hview
      · rcases hx1 with rfl
        rcases mem_addVote hy with hy1 | hy1
        · exact (hnone y hy1 hys hseq.symm hview.symm).symm
        · rcases hy1 with rfl
          rfl
    · intro x hx hs
      exact any_addVote _ _ _ (h11 x hx hs)
  · exact h

lemma inv_handlePrepare {st : NodeState} (m : Vote) (h : Inv st) :
    Inv (handlePrepare st m) := by
  unfold handlePrepare
  split
  · rename_i hcond
    rw [Bool.and_eq_true] at hcond
    obtain ⟨_, hne⟩ := hcond
    rw [bne_iff_ne] at hne
    apply inv_tryMarkPrepared
    obtain ⟨h1, h2, h3, h4, h5, h6, h7, h8, h9, h10, h11⟩ := h
    refine ⟨h1, ?_, ?_, h4, h5, h6, h7, h8, h9, ?_, ?_⟩
    · intro x hx hs
      rcases mem_addVote hx with hx1 | hx1
      · exact h2 x hx1 hs
      · rcases hx1 with rfl
        exact absurd hs hne
    · intro p hp
      obtain ⟨hown, hcnt⟩ := h3 p hp
      exact ⟨any_addVote _ _ _ hown,
        Nat.le_trans hcnt (quorumCount_addVote_le _ _ _)⟩
    · intro x hx y hy hxs hys hseq hview
      rcases mem_addVote hx with hx1 | hx1
      · rcases mem_addVote hy with hy1 | hy1
        · exact h10 x hx1 y hy1 hxs hys hseq hview
        · rcases hy1 with rfl
          exact absurd hys hne
      · rcases hx1 with rfl
        exact absurd hxs hne
    · intro x hx hs
      exact any_addVote _ _ _ (h11 x hx hs)
  · exact h

lemma inv_tryFinalize {st : NodeState} (s v d : Nat) (h : Inv st) :
    Inv (tryFinalize st s v d) := by
  unfold tryFinalize
  split
  · rename_i hready
    unfold commitReady at hready
    rw [decide_eq_true_eq] at hready
    cases hfind : st.authed.find? (fun r => digestOf r == d) with
    | none => exact h
    | some r =>
        dsimp only
        have hmem : r ∈ st.authed := List.mem_of_find?_eq_some hfind
        have hrd : digestOf r = d := by
          have := List.find?_some hfind
          simpa using this
        by_cases hlog : st.log.any (fun rec => rec.reqId == r.reqId) = true
        · rw [if_pos hlog]
          exact h
        · rw [if_neg hlog]
          have hnot : ∀ rec ∈ st.log, rec.reqId ≠ r.reqId := by
            intro rec hrec hb
            exact hlog (List.any_eq_true.mpr ⟨rec, hrec, by simpa using hb⟩)
          obtain ⟨h1, h2, h3, h4, h5, h6, h7, h8, h9, h10, h11⟩ := h
          refine ⟨h1, h2, h3, h4, ?_, ?_, ?_, ?_, ?_, h10, h11⟩
          · intro rec hrec
            rcases List.mem_append.mp hrec with hr1 | hr1
            · exact h5 rec hr1
            · rcases List.mem_singleton.mp hr1 with rfl
              exact ⟨v, hready⟩
          · show (List.map (fun rec => rec.reqId)
              (st.log ++ [{ seq := s, reqId := r.reqId, dg := d }])).Nodup
            rw [List.map_append]
            apply nodup_append_one _ _ h6
            intro hmm
            obtain ⟨rec, hrec, hre⟩ := List.mem_map.mp hmm
            exact hnot rec hrec hre
          · intro e he
            rcases List.mem_append.mp he with he1 | he1
            · obtain ⟨he2, ⟨rec, hrec, hre⟩, hq⟩ := h7 e he1
              exact ⟨he2, ⟨rec, List.mem_append_left _ hrec, hre⟩, hq⟩
            · rcases List.mem_singleton.mp he1 with rfl
              refine ⟨rfl, ?_, r, hmem, rfl, rfl⟩
              exact ⟨_, List.mem_append_right _ (List.mem_singleton.mpr rfl), rfl⟩
          · show (List.map (fun e => e.1.2) (st.replyCache ++
              [((r.clientId, r.reqId),
                { reqId := r.reqId, result := execute r.payload, nodeName := st.name,
                  signature := mkSig st.name (Nat.pair r.reqId (execute r.payload)) })])).Nodup
            rw [List.map_append]
            apply nodup_append_one _ _ h8
            intro hmm
            obtain ⟨e, he, hre⟩ := List.mem_map.mp hmm
            obtain ⟨_, ⟨rec, hrec, hre2⟩, _⟩ := h7 e he
            exact hnot rec hrec (hre2.trans hre)
          · intro e he
            rcases List.mem_append.mp he with he1 | he1
            · exact h9 e he1
            · rcases List.mem_singleton.mp he1 with rfl
              exact ⟨rfl, rfl⟩
  · exact h

lemma inv_handleCommit {st : NodeState} (m : Vote) (h : Inv st) :
    Inv (handleCommit st m) := by
  unfold handleCommit
  split
  · rename_i hcond
    rw [Bool.and_eq_true] at hcond
    obtain ⟨_, hne⟩ := hcond
    rw [bne_iff_ne] at hne
    apply inv_tryFinalize
    obtain ⟨h1, h2, h3, h4, h5, h6, h7, h8, h9, h10, h11⟩ := h
    refine ⟨h1, h2, h3, h4, ?_, h6, h7, h8, h9, h10, ?_⟩
    · intro rec hrec
      obtain ⟨v2, hv2⟩ := h5 rec hrec
      exact ⟨v2, Nat.le_trans hv2 (quorumCount_addVote_le _ _ _)⟩
    · intro x hx hs
      rcases mem_addVote hx with hx1 | hx1
      · exact h11 x hx1 hs
      · rcases hx1 with rfl
        exact absurd hs hne
  · exact h

lemma inv_doPropose {st : NodeState} (h : Inv st) : Inv (doPropose st) := by
  unfold doPropose
  split
  · cases hfind : (pendingRequests st).find?
        (fun r => ! st.proposals.any (fun p => p.2.2 == digestOf r)) with
    | none => exact h
    | some r =>
        have hmem : r ∈ st.authed := by
          have := List.mem_of_find?_eq_some hfind
          exact List.mem_of_mem_filter this
        obtain ⟨h1, h2, h3, h4, h5, h6, h7, h8, h9, h10, h11⟩ := h
        refine ⟨h1, h2, h3, ?_, h5, h6, h7, h8, h9, h10, h11⟩
        intro p hp
        rcases List.mem_append.mp hp with hp1 | hp1
        · exact h4 p hp1
        · rcases List.mem_singleton.mp hp1 with rfl
          exact ⟨r, hmem, rfl⟩
  · exact h

lemma inv_handleViewChange {st : NodeState} (m : VCVote) (h : Inv st) :
    Inv (handleViewChange st m) := by
  unfold handleViewChange
  split
  · exact h
  · exact h

lemma inv_step {st : NodeState} (e : NodeEvent) (h : Inv st) : Inv (step st e) := by
  cases e with
  | clientRequest r => exact inv_handleClientRequest r h
  | proposeTick => exact inv_doPropose h
  | proposeMsg sender s v d => exact inv_handlePropose sender s v d h
  | prepareMsg m => exact inv_handlePrepare m h
  | commitMsg m => exact inv_handleCommit m h
  | viewChangeMsg m => exact inv_handleViewChange m h

lemma inv_run {st : NodeState} (es : List NodeEvent) (h : Inv st) :
    Inv (run st es) := by
  induction es generalizing st with
  | nil => exact h
  | cons e es ih => exact ih (inv_step e h)

lemma inv_initNode (name n : Nat) (a : ClientAuthenticator) (tf : Nat → Nat) :
    Inv (initNode name n a tf) := by
  refine ⟨?_, ?_, ?_, ?_, ?_, ?_, ?_, ?_⟩ <;>
    simp [initNode]

/-- Every state a node reaches from construction satisfies the engine
invariant. -/
lemma inv_reachable (name n : Nat) (a : ClientAuthenticator) (tf : Nat → Nat)
    (es : List NodeEvent) : Inv (run (initNode name n a tf) es) :=
  inv_run es (inv_initNode name n a tf)

/-! ## Frame lemmas: the reply behavior never influences the protocol -/

/-- One step started with a different reply behavior produces the same
state with that behavior: no handler reads or writes replyTransform. -/
lemma step_tf (st : NodeState) (t : Nat → Nat) (e : NodeEvent) :
    step { st with replyTransform := t } e = { step st e with replyTransform := t } := by
  cases e <;>
    simp only [step, handleClientRequest, doPropose, handlePropose, handlePrepare,
      handleCommit, handleViewChange, tryMarkPrepared, tryFinalize, cachedReply,
      pendingRequests, prepareReady, commitReady, isPrimary, participating, primaryOf,
      NodeState.f, hasOwnVote, otherVotersCount, votersCount, quorumCount, vcVotersCount,
      preparedNotCommitted, addVote, addVcVote, vcStable, proofsFor, vcActivate, reproposalsFor, emitReply] <;>
    (repeat' split) <;> rfl

/-- A whole run started with a different reply behavior produces the same
state with that behavior. -/
lemma run_tf (st : NodeState) (t : Nat → Nat) (es : List NodeEvent) :
    run { st with replyTransform := t } es = { run st es with replyTransform := t } := by
  induction es generalizing st with
  | nil => rfl
  | cons e es ih =>
      show run (step { st with replyTransform := t } e) es = _
      rw [step_tf, ih]
      rfl

/-- The reply behavior selected at construction is never mutated by a
step. -/
lemma step_replyTransform (st : NodeState) (e : NodeEvent) :
    (step st e).replyTransform = st.replyTransform := by
  cases e <;>
    simp only [step, handleClientRequest, doPropose, handlePropose, handlePrepare,
      handleCommit, handleViewChange, tryMarkPrepared, tryFinalize, cachedReply,
      pendingRequests, prepareReady, commitReady, isPrimary, participating, primaryOf,
      NodeState.f, hasOwnVote, otherVotersCount, votersCount, quorumCount, vcVotersCount,
      preparedNotCommitted, addVote, addVcVote, vcStable, proofsFor, vcActivate, reproposalsFor, emitReply] <;>
    (repeat' split) <;> rfl

/-- The reply behavior selected at construction is never mutated over a
run. -/
lemma run_replyTransform (st : NodeState) (es : List NodeEvent) :
    (run st es).replyTransform = st.replyTransform := by
  induction es generalizing st with
  | nil => rfl
  | cons e es ih =>
      show (run (step st e) es).replyTransform = _
      rw [ih, step_replyTransform]

/-- The client-key registry fixed at construction is never mutated by a
step. -/
lemma step_authNr (st : NodeState) (e : NodeEvent) :
    (step st e).authNr = st.authNr := by
  cases e <;>
    simp only [step, handleClientRequest, doPropose, handlePropose, handlePrepare,
      handleCommit, handleViewChange, tryMarkPrepared, tryFinalize, cachedReply,
      pendingRequests, prepareReady, commitReady, isPrimary, participating, primaryOf,
      NodeState.f, hasOwnVote, otherVotersCount, votersCount, quorumCount, vcVotersCount,
      preparedNotCommitted, addVote, addVcVote, vcStable, proofsFor, vcActivate, reproposalsFor, emitReply] <;>
    (repeat' split) <;> rfl

/-- The client-key registry is constant over a run. -/
lemma run_authNr (st : NodeState) (es : List NodeEvent) :
    (run st es).authNr = st.authNr := by
  induction es generalizing st with
  | nil => rfl
  | cons e es ih =>
      show (run (step st e) es).authNr = _
      rw [ih, step_authNr]

/-- A node's identity is never mutated by a step. -/
lemma step_name (st : NodeState) (e : NodeEvent) :
    (step st e).name = st.name := by
  cases e <;>
    simp only [step, handleClientRequest, doPropose, handlePropose, handlePrepare,
      handleCommit, handleViewChange, tryMarkPrepared, tryFinalize, cachedReply,
      pendingRequests, prepareReady, commitReady, isPrimary, participating, primaryOf,
      NodeState.f, hasOwnVote, otherVotersCount, votersCount, quorumCount, vcVotersCount,
      preparedNotCommitted, addVote, addVcVote, vcStable, proofsFor, vcActivate, reproposalsFor, emitReply] <;>
    (repeat' split) <;> rfl

/-- A node's identity is constant over a run. -/
lemma run_name (st : NodeState) (es : List NodeEvent) :
    (run st es).name = st.name := by
  induction es generalizing st with
  | nil => rfl
  | cons e es ih =>
      show (run (step st e) es).name = _
      rw [ih, step_name]

/-- The pool size is never mutated by a step. -/
lemma step_poolSize (st : NodeState) (e : NodeEvent) :
    (step st e).poolSize = st.poolSize := by
  cases e <;>
    simp only [step, handleClientRequest, doPropose, handlePropose, handlePrepare,
      handleCommit, handleViewChange, tryMarkPrepared, tryFinalize, cachedReply,
      pendingRequests, prepareReady, commitReady, isPrimary, participating, primaryOf,
      NodeState.f, hasOwnVote, otherVotersCount, votersCount, quorumCount, vcVotersCount,
      preparedNotCommitted, addVote, addVcVote, vcStable, proofsFor, vcActivate, reproposalsFor, emitReply] <;>
    (repeat' split) <;> rfl

/-- The pool size is constant over a run. -/
lemma run_poolSize (st : NodeState) (es : List NodeEvent) :
    (run st es).poolSize = st.poolSize := by
  induction es generalizing st with
  | nil => rfl
  | cons e es ih =>
      show (run (step st e) es).poolSize = _
      rw [ih, step_poolSize]

/-! ## The claims -/

/-- A result counted at least once is the result of some collected
reply. -/
lemma exists_result_of_votes_pos {replies : List Reply} {res : Nat}
    (h : 1 ≤ resultVotes replies res) : ∃ r ∈ replies, r.result = res := by
  by_contra hno
  push_neg at hno
  have hnil : replies.filter (fun r => r.result == res) = [] := by
    rw [List.filter_eq_nil_iff]
    intro a ha
    simp [hno a ha]
  unfold resultVotes at h
  rw [hnil] at h
  simp at h

/-- The certificate verdict is ReachedConsensus exactly when some result
is carried by at least f+1 replies from distinct nodes. -/
lemma certStatus_consensus_iff (f : Nat) (replies : List Reply) (dl : Bool) :
    certStatus f replies dl = ConsensusStatus.ReachedConsensus ↔
    ∃ res, f + 1 ≤ resultVotes replies res := by
  unfold certStatus
  constructor
  · intro h
    by_cases hb : hasConsensus f replies = true
    · unfold hasConsensus at hb
      rw [List.any_eq_true] at hb
      obtain ⟨r, hr, hle⟩ := hb
      exact ⟨r.result, by simpa using hle⟩
    · rw [if_neg hb] at h
      by_cases hdl : dl = true <;> simp [hdl] at h
  · rintro ⟨res, hres⟩
    have hpos : 1 ≤ resultVotes replies res := Nat.le_trans (by omega) hres
    obtain ⟨r, hr, hre⟩ := exists_result_of_votes_pos hpos
    have hb : hasConsensus f replies = true := by
      unfold hasConsensus
      rw [List.any_eq_true]
      refine ⟨r, hr, ?_⟩
      rw [hre]
      simpa using hres
    rw [if_pos hb]

/-- C1: for every reqId, the client-side QuorumCertificate reaches status
ReachedConsensus iff it holds at least f+1 Replies from distinct nodes
carrying bit-identical result, with f = floor((n-1)/3); in particular
with n = 4 (f = 1), one faulty node emitting a corrupted Reply does not
prevent ReachedConsensus, the reply returned by getReply is a matching
one, and the corrupted Reply is visible only through showReplyDetails. -/
theorem C1_consensus_iff_quorum :
    (∀ (n : Nat) (replies : List Reply) (dl : Bool),
        certStatus ((n - 1) / 3) replies dl = ConsensusStatus.ReachedConsensus ↔
        ∃ res, (n - 1) / 3 + 1 ≤ resultVotes replies res) ∧
    certStatus ((4 - 1) / 3) byzReplies false = ConsensusStatus.ReachedConsensus ∧
    (getReply ((4 - 1) / 3) byzReplies false).1 = some (goodReply 0) ∧
    (getReply ((4 - 1) / 3) byzReplies false).1 ≠ some corruptReply ∧
    corruptReply ∈ showReplyDetails byzReplies ∧
    corruptReply.result ≠ (goodReply 0).result := by
  refine ⟨?_, by decide, by decide, by decide, by decide, by decide⟩
  intro n replies dl
  exact certStatus_consensus_iff ((n - 1) / 3) replies dl

/-- Witness for C1: the quorum iff evaluated on the Byzantine scenario
replies (n = 4, f = 1). -/
theorem C1_consensus_iff_quorum_witness :
    certStatus ((4 - 1) / 3) byzReplies false = ConsensusStatus.ReachedConsensus ↔
    ∃ res, (4 - 1) / 3 + 1 ≤ resultVotes byzReplies res :=
  C1_consensus_iff_quorum.1 4 byzReplies false

/-- C3: a node marks a triple prepared only while holding its own Prepare
vote plus 2f matching Prepare votes from distinct other nodes (2f+1
total) for the same (seq, view, digest), and it finalizes an
OrderedRequestRecord — with the execution and reply-cache entry — only
on 2f+1 matching Commit votes from distinct nodes for that (seq, digest)
under some view. -/
theorem C3_prepared_and_finalize_quorums (name n : Nat) (a : ClientAuthenticator)
    (tf : Nat → Nat) (es : List NodeEvent) :
    (∀ p ∈ (run (initNode name n a tf) es).preparedRecs,
        hasOwnVote name (run (initNode name n a tf) es).prepareVotes p.1 p.2.1 p.2.2 = true ∧
        2 * ((n - 1) / 3) ≤
          otherVotersCount name (run (initNode name n a tf) es).prepareVotes p.1 p.2.1 p.2.2) ∧
    (∀ rec ∈ (run (initNode name n a tf) es).log,
        ∃ v, 2 * ((n - 1) / 3) + 1 ≤
          votersCount (run (initNode name n a tf) es).commitVotes rec.seq v rec.dg) ∧
    (∀ e ∈ (run (initNode name n a tf) es).replyCache,
        ∃ rec ∈ (run (initNode name n a tf) es).log, rec.reqId = e.1.2) := by
  have hInv := inv_reachable name n a tf es
  have hname : (run (initNode name n a tf) es).name = name := by
    rw [run_name]
    rfl
  have hf : (run (initNode name n a tf) es).f = (n - 1) / 3 := by
    unfold NodeState.f
    rw [run_poolSize]
    rfl
  refine ⟨?_, ?_, ?_⟩
  · intro p hp
    have h3 := hInv.2.2.1 p hp
    rw [hname, hf] at h3
    exact h3
  · intro rec hrec
    have h5 := hInv.2.2.2.2.1 rec hrec
    rw [hf] at h5
    exact h5
  · intro e he
    exact (hInv.2.2.2.2.2.2.1 e he).2.1

/-- Witness for C3: node 1's state after evs0 holds a prepared triple, a
finalized record and a cached reply, each backed as the theorem says. -/
theorem C3_prepared_and_finalize_quorums_witness :
    (hasOwnVote 1 node1run.prepareVotes 1 0 d0 = true ∧
      2 * ((4 - 1) / 3) ≤ otherVotersCount 1 node1run.prepareVotes 1 0 d0) ∧
    (∃ v, 2 * ((4 - 1) / 3) + 1 ≤ votersCount node1run.commitVotes 1 v d0) ∧
    (∃ rec ∈ node1run.log, rec.reqId = 1) :=
  ⟨(C3_prepared_and_finalize_quorums 1 4 auth0 id evs0).1 (1, 0, d0) (by decide),
   (C3_prepared_and_finalize_quorums 1 4 auth0 id evs0).2.1
     { seq := 1, reqId := 1, dg := d0 } (by decide),
   (C3_prepared_and_finalize_quorums 1 4 auth0 id evs0).2.2
     ((0, 1), { reqId := 1, result := 42, nodeName := 1, signature := 3115226 })
     (by decide)⟩

/-- C4: a node's reply cache records a reply only for a request that
passed authentication against the node's registry, and for every reqId
at most one execution (log record) and at most one reply ever occur. -/
theorem C4_validity (name n : Nat) (a : ClientAuthenticator) (tf : Nat → Nat)
    (es : List NodeEvent) :
    (∀ e ∈ (run (initNode name n a tf) es).replyCache,
        ∃ r ∈ (run (initNode name n a tf) es).authed,
          r.clientId = e.1.1 ∧ r.reqId = e.1.2 ∧ verify a r = .ok ()) ∧
    ((run (initNode name n a tf) es).replyCache.map (fun e => e.1.2)).Nodup ∧
    ((run (initNode name n a tf) es).log.map (fun rec => rec.reqId)).Nodup := by
  have hInv := inv_reachable name n a tf es
  have ha : (run (initNode name n a tf) es).authNr = a := by
    rw [run_authNr]
    rfl
  refine ⟨?_, hInv.2.2.2.2.2.2.2.1, hInv.2.2.2.2.2.1⟩
  intro e he
  obtain ⟨_, _, r, hr, hrc, hri⟩ := hInv.2.2.2.2.2.2.1 e he
  have hok := hInv.1 r hr
  rw [ha] at hok
  exact ⟨r, hr, hrc, hri, hok⟩

/-- Witness for C4: node 1's cached reply for (clientId 0, reqId 1) comes
from the authenticated req0, and its cache and log have no duplicate
reqIds. -/
theorem C4_validity_witness :
    (∃ r ∈ node1run.authed, r.clientId = 0 ∧ r.reqId = 1 ∧ verify auth0 r = .ok ()) ∧
    (node1run.replyCache.map (fun e => e.1.2)).Nodup ∧
    (node1run.log.map (fun rec => rec.reqId)).Nodup :=
  ⟨(C4_validity 1 4 auth0 id evs0).1
     ((0, 1), { reqId := 1, result := 42, nodeName := 1, signature := 3115226 })
     (by decide),
   (C4_validity 1 4 auth0 id evs0).2.1,
   (C4_validity 1 4 auth0 id evs0).2.2⟩

/-- C5: when a node holding a lower view collects f+1 ViewChange votes
from distinct nodes for the same newView, it activates that view, adopts
node newView mod n as primary, and resumes ordering from lastStableSeq+1
(the quorum's last stable sequence number); every request prepared but
not committed — the new primary's own prepared records and every triple
whose Prepare proof is carried by the collected ViewChange votes — is
re-proposed by the new primary, so no request is silently dropped. -/
theorem C5_view_change (st : NodeState) (m : VCVote)
    (hv : st.view < m.newView)
    (hq : st.f + 1 ≤ vcVotersCount (addVcVote st.vcVotes m) m.newView) :
    (handleViewChange st m).view = m.newView ∧
    (handleViewChange st m).mode = NodeMode.ViewActive ∧
    primaryOf (handleViewChange st m) = m.newView % st.poolSize ∧
    (handleViewChange st m).nextSeq = (handleViewChange st m).lastStableSeq + 1 ∧
    (handleViewChange st m).lastStableSeq
      = vcStable { st with vcVotes := addVcVote st.vcVotes m } m.newView ∧
    (m.newView % st.poolSize = st.name →
      (∀ p ∈ preparedNotCommitted st,
        (p.1, m.newView, p.2.2) ∈ (handleViewChange st m).reproposals) ∧
      (∀ v ∈ addVcVote st.vcVotes m, v.newView = m.newView →
        ∀ p ∈ v.proof, (∀ rec ∈ st.log, rec.dg ≠ p.2.2) →
          (p.1, m.newView, p.2.2) ∈ (handleViewChange st m).reproposals)) := by
  have hc : (decide (st.f + 1 ≤ vcVotersCount (addVcVote st.vcVotes m) m.newView) &&
      decide (st.view < m.newView)) = true := by
    rw [Bool.and_eq_true, decide_eq_true_eq, decide_eq_true_eq]
    exact ⟨hq, hv⟩
  unfold handleViewChange
  rw [if_pos hc]
  unfold vcActivate
  refine ⟨rfl, rfl, rfl, rfl, rfl, ?_⟩
  intro hpr
  have hprb : (m.newView % st.poolSize == st.name) = true := by simpa using hpr
  constructor
  · intro p hp
    apply List.mem_append_right
    unfold reproposalsFor
    dsimp only
    rw [if_pos hprb]
    exact List.mem_map.mpr ⟨p, List.mem_append_left _ hp, rfl⟩
  · intro v hv2 hnv p hp hnot
    apply List.mem_append_right
    unfold reproposalsFor
    dsimp only
    rw [if_pos hprb]
    apply List.mem_map.mpr
    refine ⟨p, List.mem_append_right _ ?_, rfl⟩
    apply List.mem_filter.mpr
    refine ⟨?_, ?_⟩
    · unfold proofsFor
      dsimp only
      apply List.mem_flatMap.mpr
      refine ⟨v, ?_, hp⟩
      apply List.mem_filter.mpr
      exact ⟨hv2, by simpa using hnv⟩
    · have hanyf : st.log.any (fun rec => rec.dg == p.2.2) = false := by
        rw [List.any_eq_false]
        intro rec hrec
        simp [hnot rec hrec]
      rw [hanyf]
      rfl

/-- Witness for C5: node 1 — primary of view 1 — holding the prepared
but uncommitted triple (1, 0, d0) and node 0's ViewChange vote, activates
view 1 on node 3's vote vc3 and re-proposes both its own prepared triple
and the triple (5, 0, 777) carried only by vc3's Prepare proof. -/
theorem C5_view_change_witness :
    (handleViewChange stVC vc3).view = 1 ∧
    (handleViewChange stVC vc3).mode = NodeMode.ViewActive ∧
    primaryOf (handleViewChange stVC vc3) = 1 % stVC.poolSize ∧
    (handleViewChange stVC vc3).nextSeq
      = (handleViewChange stVC vc3).lastStableSeq + 1 ∧
    (1, 1, d0) ∈ (handleViewChange stVC vc3).reproposals ∧
    (5, 1, 777) ∈ (handleViewChange stVC vc3).reproposals :=
  have h := C5_view_change stVC vc3 (by decide) (by decide)
  ⟨h.1, h.2.1, h.2.2.1, h.2.2.2.1,
   (h.2.2.2.2.2 (by decide)).1 (1, 0, d0) (by decide),
   (h.2.2.2.2.2 (by decide)).2 vc3 (by decide) (by decide) (5, 0, 777)
     (by decide) (by decide)⟩

/-- C6: resubmitting a request whose (clientId, reqId) pair was already
executed by an honestly behaving node returns exactly the cached Reply
and leaves the whole node state — in particular the ordering log —
unchanged: no re-ordering and no re-execution. -/
theorem C6_resubmission_idempotent (name n : Nat) (a : ClientAuthenticator)
    (es : List NodeEvent) (r : Request) (rep : Reply)
    (h : cachedReply (run (initNode name n a id) es) r.clientId r.reqId = some rep) :
    handleClientRequest (run (initNode name n a id) es) r
      = (run (initNode name n a id) es, some rep) := by
  have hInv := inv_reachable name n a id es
  obtain ⟨p, hfind, hp2⟩ : ∃ p, (run (initNode name n a id) es).replyCache.find?
      (fun q => q.1 == (r.clientId, r.reqId)) = some p ∧ p.2 = rep := by
    unfold cachedReply at h
    cases hf : (run (initNode name n a id) es).replyCache.find?
        (fun q => q.1 == (r.clientId, r.reqId)) with
    | none => rw [hf] at h; simp at h
    | some p =>
        rw [hf] at h
        simp at h
        exact ⟨p, rfl, h⟩
  have hmem : p ∈ (run (initNode name n a id) es).replyCache :=
    List.mem_of_find?_eq_some hfind
  obtain ⟨hn9, hs9⟩ := hInv.2.2.2.2.2.2.2.2.1 p hmem
  rw [hp2] at hn9 hs9
  have htf : (run (initNode name n a id) es).replyTransform = id := by
    rw [run_replyTransform]
    rfl
  have hname : (run (initNode name n a id) es).name = name := by
    rw [run_name]
    rfl
  unfold handleClientRequest
  rw [h]
  dsimp only
  congr 1
  unfold emitReply
  rw [htf]
  cases rep with
  | mk rid res nm sig =>
      simp only [id_eq]
      dsimp only at hn9 hs9
      rw [hn9, ← hs9]

/-- Witness for C6: resubmitting req0 to node 1 after evs0 returns the
cached reply and the unchanged state. -/
theorem C6_resubmission_idempotent_witness :
    handleClientRequest node1run req0
      = (node1run,
         some { reqId := 1, result := 42, nodeName := 1, signature := 3115226 }) :=
  C6_resubmission_idempotent 1 4 auth0 evs0 req0
    { reqId := 1, result := 42, nodeName := 1, signature := 3115226 } (by decide)

/-- C7: addClient succeeds and returns the registry unchanged when the
(id, key) pair already matches the existing entry, and fails with
KeySubstitutionError — producing no new registry — when the identifier
is already bound to a different key. -/
theorem C7_addClient_contract :
    (∀ (a : ClientAuthenticator) (id key : Nat),
        lookupClient a id = some key → addClient a id key = .ok a) ∧
    (∀ (a : ClientAuthenticator) (id key k : Nat),
        lookupClient a id = some k → k ≠ key →
        addClient a id key = .error .KeySubstitutionError) := by
  constructor
  · intro a id key h
    unfold addClient
    rw [h]
    dsimp only
    simp
  · intro a id key k h hk
    unfold addClient
    rw [h]
    dsimp only
    rw [if_neg (by simp [hk])]

/-- Witness for C7: re-registering client 0 with its key 5 is a no-op,
re-registering it with key 6 is rejected. -/
theorem C7_addClient_contract_witness :
    addClient auth0 0 5 = .ok auth0 ∧
    addClient auth0 0 6 = .error .KeySubstitutionError :=
  ⟨C7_addClient_contract.1 auth0 0 5 (by decide),
   C7_addClient_contract.2 auth0 0 6 5 (by decide) (by decide)⟩

/-- C8: verify fails with UnknownClientError for an unregistered
clientId, with BadSignatureError when the signature does not verify
against the stored key, and succeeds otherwise (with no side effect,
being pure); a request failing verification leaves the node state
untouched, never enters the authenticated pool, and every proposal ever
made is for an authenticated, verify-clean request — so a failing
request is never proposed. -/
theorem C8_verify_contract_and_gate :
    (∀ (a : ClientAuthenticator) (r : Request),
        (lookupClient a r.clientId = none → verify a r = .error .UnknownClientError) ∧
        (∀ key, lookupClient a r.clientId = some key →
            r.signature ≠ mkSig key (reqBody r) → verify a r = .error .BadSignatureError) ∧
        (∀ key, lookupClient a r.clientId = some key →
            r.signature = mkSig key (reqBody r) → verify a r = .ok ())) ∧
    (∀ (st : NodeState) (r : Request) (err : AuthError),
        verify st.authNr r = .error err → (handleClientRequest st r).1 = st) ∧
    (∀ (name n : Nat) (a : ClientAuthenticator) (tf : Nat → Nat)
        (es : List NodeEvent) (r : Request) (err : AuthError),
        verify a r = .error err →
        r ∉ (run (initNode name n a tf) es).authed ∧
        ∀ p ∈ (run (initNode name n a tf) es).proposals,
          ∃ q ∈ (run (initNode name n a tf) es).authed,
            verify a q = .ok () ∧ digestOf q = p.2.2) := by
  refine ⟨?_, ?_, ?_⟩
  · intro a r
    refine ⟨?_, ?_, ?_⟩
    · intro h
      unfold verify
      rw [h]
    · intro key h hsig
      unfold verify
      rw [h]
      dsimp only
      rw [if_neg (by simpa using hsig)]
    · intro key h hsig
      unfold verify
      rw [h]
      dsimp only
      rw [if_pos (by simpa using hsig)]
  · intro st r err hv
    unfold handleClientRequest
    cases hc : cachedReply st r.clientId r.reqId with
    | some raw => rfl
    | none =>
        rw [hv]
  · intro name n a tf es r err hv
    have hInv := inv_reachable name n a tf es
    have ha : (run (initNode name n a tf) es).authNr = a := by
      rw [run_authNr]
      rfl
    constructor
    · intro hmem
      have hok := hInv.1 r hmem
      rw [ha, hv] at hok
      exact absurd hok (by simp)
    · intro p hp
      obtain ⟨q, hq, hdg⟩ := hInv.2.2.2.1 p hp
      have hok := hInv.1 q hq
      rw [ha] at hok
      exact ⟨q, hq, hok, hdg⟩

/-- Witness for C8: the three verify outcomes on concrete requests, the
unchanged state on a rejected submission, and the absence of the
bad-signature request from node 1's authenticated pool. -/
theorem C8_verify_contract_and_gate_witness :
    verify auth0 unknownReq = .error .UnknownClientError ∧
    verify auth0 badReq = .error .BadSignatureError ∧
    verify auth0 req0 = .ok () ∧
    (handleClientRequest node1run badReq).1 = node1run ∧
    badReq ∉ node1run.authed :=
  ⟨(C8_verify_contract_and_gate.1 auth0 unknownReq).1 (by decide),
   (C8_verify_contract_and_gate.1 auth0 badReq).2.1 5 (by decide) (by decide),
   (C8_verify_contract_and_gate.1 auth0 req0).2.2 5 (by decide) (by decide),
   C8_verify_contract_and_gate.2.1 node1run badReq AuthError.BadSignatureError (by rfl),
   (C8_verify_contract_and_gate.2.2 1 4 auth0 id evs0 badReq
     AuthError.BadSignatureError (by rfl)).1⟩

/-- The cached-reply lookup ignores the reply behavior. -/
lemma cachedReply_tf (st : NodeState) (t : Nat → Nat) (cid rid : Nat) :
    cachedReply { st with replyTransform := t } cid rid = cachedReply st cid rid :=
  rfl

/-- C9: wrapping a node with a reply-corrupting behavior changes only the
content of the Reply it signs and sends: the behavior is fixed at
construction and never mutated over any run, the entire protocol state —
votes, proposals, prepared records, ordering log, reply cache content —
is identical to the honest node's run on the same events, and the
emitted replies differ from the honest ones exactly by the transform
applied to the result, with reqId and nodeName unchanged. -/
theorem C9_fault_injection_frame (name n : Nat) (a : ClientAuthenticator)
    (tf : Nat → Nat) (es : List NodeEvent) :
    (run (initNode name n a tf) es).replyTransform = tf ∧
    run (initNode name n a tf) es
      = { run (initNode name n a id) es with replyTransform := tf } ∧
    (∀ cid rid : Nat,
      (cachedReply (run (initNode name n a tf) es) cid rid).map
          (fun rep => (emitReply (run (initNode name n a tf) es) rep).result)
        = ((cachedReply (run (initNode name n a id) es) cid rid).map
            (fun rep => (emitReply (run (initNode name n a id) es) rep).result)).map tf ∧
      (cachedReply (run (initNode name n a tf) es) cid rid).map
          (fun rep => ((emitReply (run (initNode name n a tf) es) rep).reqId,
                       (emitReply (run (initNode name n a tf) es) rep).nodeName))
        = (cachedReply (run (initNode name n a id) es) cid rid).map
            (fun rep => ((emitReply (run (initNode name n a id) es) rep).reqId,
                         (emitReply (run (initNode name n a id) es) rep).nodeName))) := by
  have h0 : initNode name n a tf = { initNode name n a id with replyTransform := tf } :=
    rfl
  have h2 : run (initNode name n a tf) es
      = { run (initNode name n a id) es with replyTransform := tf } := by
    rw [h0, run_tf]
  have h1 : (run (initNode name n a tf) es).replyTransform = tf := by
    rw [run_replyTransform]
    rfl
  have htfH : (run (initNode name n a id) es).replyTransform = id := by
    rw [run_replyTransform]
    rfl
  refine ⟨h1, h2, ?_⟩
  intro cid rid
  rw [h2, cachedReply_tf]
  cases hcc : cachedReply (run (initNode name n a id) es) cid rid with
  | none => exact ⟨rfl, rfl⟩
  | some rep => exact ⟨by simp [emitReply, htfH], by simp [emitReply]⟩

/-- Witness for C9: node 1 run under a corrupting transform emits, for
the executed request, the honest result with the transform applied. -/
theorem C9_fault_injection_frame_witness :
    (cachedReply (run (initNode 1 4 auth0 (fun x => x + 57)) evs0) 0 1).map
        (fun rep => (emitReply (run (initNode 1 4 auth0 (fun x => x + 57)) evs0)
          rep).result)
      = ((cachedReply (run (initNode 1 4 auth0 id) evs0) 0 1).map
          (fun rep => (emitReply (run (initNode 1 4 auth0 id) evs0) rep).result)).map
          (fun x => x + 57) :=
  ((C9_fault_injection_frame 1 4 auth0 (fun x => x + 57) evs0).2.2 0 1).1

/-- C10: submit returns a batch of exactly one Request carrying the next
reqId for this client, and that reqId is a key certOf, getReply and
showReplyDetails accept, retrieving the certificate opened for this very
submission. -/
theorem C10_submit_single (st : ClientState) (payload : Nat) (dl : Bool)
    (hfresh : ∀ c ∈ st.certs, c.1 ≤ st.lastReqId) :
    (submit st payload).1
      = [signedRequest st.signKey st.clientId (st.lastReqId + 1) payload] ∧
    ∀ r ∈ (submit st payload).1,
      r.reqId = st.lastReqId + 1 ∧
      certOf (submit st payload).2 r.reqId = some [] ∧
      clientGetReply (submit st payload).2 r.reqId dl
        = some (getReply (clientF st) [] dl) ∧
      clientShowReplyDetails (submit st payload).2 r.reqId = some [] := by
  have hfind : (submit st payload).2.certs.find?
      (fun c => c.1 == st.lastReqId + 1) = some (st.lastReqId + 1, []) := by
    show (st.certs ++ [(st.lastReqId + 1, [])]).find?
        (fun c => c.1 == st.lastReqId + 1) = some (st.lastReqId + 1, [])
    rw [List.find?_append]
    have hnone : st.certs.find? (fun c => c.1 == st.lastReqId + 1) = none := by
      rw [List.find?_eq_none]
      intro c hc
      have := hfresh c hc
      simp only [beq_eq_false_iff_ne, ne_eq, Bool.not_eq_true, beq_iff_eq]
      omega
    rw [hnone]
    simp
  have hcert : certOf (submit st payload).2 (st.lastReqId + 1) = some [] := by
    unfold certOf
    rw [hfind]
    rfl
  refine ⟨rfl, ?_⟩
  intro r hr
  rcases List.mem_singleton.mp hr with rfl
  refine ⟨rfl, hcert, ?_, ?_⟩
  · show (certOf (submit st payload).2 (st.lastReqId + 1)).map
        (fun replies => getReply (clientF (submit st payload).2) replies dl)
      = some (getReply (clientF st) [] dl)
    rw [hcert]
    rfl
  · show (certOf (submit st payload).2 (st.lastReqId + 1)).map showReplyDetails
      = some []
    rw [hcert]
    rfl

/-- Witness for C10: a fresh client submitting payload 42. -/
theorem C10_submit_single_witness :
    (submit client0 42).1
      = [signedRequest client0.signKey client0.clientId (client0.lastReqId + 1) 42] ∧
    ∀ r ∈ (submit client0 42).1,
      r.reqId = client0.lastReqId + 1 ∧
      certOf (submit client0 42).2 r.reqId = some [] ∧
      clientGetReply (submit client0 42).2 r.reqId false
        = some (getReply (clientF client0) [] false) ∧
      clientShowReplyDetails (submit client0 42).2 r.reqId = some [] :=
  C10_submit_single client0 42 false (by decide)

end Plenum
